import Mathlib

/-!
Verification of the certificate-splitting utility (separar_certificados.py).

The program is embedded shallowly: Python strings become `List Char`,
`re.sub` of a whitespace run by a single space becomes `colapsar`,
`str.strip` becomes `recortar`, and the per-page loop of
`separar_certificados` becomes a fold over page indices threading the set
of already-existing output filenames.  The regex engine and the PDF
library are abstracted as oracle functions (a matcher returning capture
group 1, and a page-write outcome); everything the claims quantify over is
translated operation by operation from the source.
-/

namespace SSC

/-- Whitespace characters recognised by Python regex class backslash-s and
by str.strip (ASCII range). -/
def esEspacio (c : Char) : Bool :=
  c = ' ' || c = '\t' || c = '\n' || c = '\r' ||
  c = Char.ofNat 0x0B || c = Char.ofNat 0x0C

/-- The reserved filename characters removed by limpiar_nombre_archivo. -/
def caracteresReservados : List Char := ['<', '>', ':', '"', '/', '\\', '|', '?', '*']

/-- str.strip: drop leading and trailing whitespace. -/
def recortar (l : List Char) : List Char :=
  (l.dropWhile esEspacio).rdropWhile esEspacio

/-- Helper for colapsar; the flag records whether the previous character was
whitespace (in which case further whitespace is dropped rather than emitted). -/
def colapsarAux : Bool → List Char → List Char
  | _, [] => []
  | enEspacio, c :: resto =>
    if esEspacio c then
      if enEspacio then colapsarAux true resto else ' ' :: colapsarAux true resto
    else c :: colapsarAux false resto

/-- re.sub of a whitespace run by a single space: every maximal run of
whitespace characters becomes one space. -/
def colapsar (l : List Char) : List Char := colapsarAux false l

/-- limpiar_nombre_archivo from the source: remove the reserved characters,
collapse whitespace runs to single spaces, strip, cap the length at 100,
and substitute the fixed placeholder when the result is empty. -/
def limpiar_nombre_archivo (nombre : List Char) : List Char :=
  let paso1 := nombre.filter (fun c => !(caracteresReservados.contains c))
  let paso2 := colapsar paso1
  let paso3 := recortar paso2
  let paso4 := if paso3.length > 100 then paso3.take 100 else paso3
  if paso4 = [] then "certificado_sin_nombre".data else paso4

/-- The cleaned-before-default intermediate value of limpiar_nombre_archivo:
reserved characters removed, whitespace collapsed, ends trimmed. -/
def nombreRecortado (nombre : List Char) : List Char :=
  recortar (colapsar (nombre.filter (fun c => !(caracteresReservados.contains c))))

/-- Decimal digit character, as produced by Python str of a number. -/
def digitoChar : Nat → Char
  | 0 => '0' | 1 => '1' | 2 => '2' | 3 => '3' | 4 => '4'
  | 5 => '5' | 6 => '6' | 7 => '7' | 8 => '8' | _ => '9'

/-- Digits of n in decimal, most significant first, prepended to acc; the
first argument is structural fuel (any fuel at least n computes all digits). -/
def natStrAux : Nat → Nat → List Char → List Char
  | 0, _, acc => acc
  | comb + 1, n, acc =>
    if n = 0 then acc else natStrAux comb (n / 10) (digitoChar (n % 10) :: acc)

/-- Python str of a natural number: its decimal digit string. -/
def natStr (n : Nat) : List Char :=
  if n = 0 then ['0'] else natStrAux n n []

/-- Python format spec 03d: decimal digits left-padded with zeros to width 3. -/
def natStr3 (n : Nat) : List Char :=
  let s := natStr n
  if s.length < 3 then List.replicate (3 - s.length) '0' ++ s else s

/-- The generated placeholder name for page number numero (1-based):
certificado underscore zero-padded 3-digit page number. -/
def nombreGenerado (numero : Nat) : List Char :=
  "certificado_".data ++ natStr3 numero

/-- The cleanup applied to a regex capture group in extraer_nombre_de_pagina:
strip, collapse whitespace runs, truncate at the first line break, strip. -/
def limpiarCaptura (g : List Char) : List Char :=
  recortar (List.takeWhile (fun c => c ≠ '\n') (colapsar (recortar g)))

/-- extraer_nombre_de_pagina from the source, with the regex engine
abstracted as buscar (pattern to capture group 1 of the first match on the
page text, none when the pattern does not match): try the patterns in
order; on a match clean the capture and return it when longer than
2 characters, otherwise keep trying; none when no pattern yields a long
enough capture. -/
def extraer_nombre_de_pagina (buscar : List Char → Option (List Char)) :
    List (List Char) → Option (List Char)
  | [] => none
  | patron :: resto =>
    match buscar patron with
    | some g =>
      let nombre := limpiarCaptura g
      if nombre.length > 2 then some nombre else extraer_nombre_de_pagina buscar resto
    | none => extraer_nombre_de_pagina buscar resto

/-- The per-pattern result extraer_nombre_de_pagina is looking for: the
cleaned capture group when the pattern matches and the cleaned capture is
longer than 2 characters. -/
def capturaBuena (buscar : List Char → Option (List Char)) (patron : List Char) :
    Option (List Char) :=
  (buscar patron).bind fun g =>
    if (limpiarCaptura g).length > 2 then some (limpiarCaptura g) else none

/-- The provenance of a page's resolved name. -/
inductive Origen where
  | lista
  | extraido
  | generado
deriving DecidableEq, Repr

/-- Name resolution for page index i (0-based) in separar_certificados:
a non-empty supplied list entry at i wins, otherwise the extracted name,
and any falsy result (no extraction, or an empty string from the list) is
replaced by the generated placeholder for page number i + 1. -/
def nombreParaPagina (lista_nombres : List (List Char))
    (extraido : Option (List Char)) (i : Nat) : List Char × Origen :=
  let par : Option (List Char) × Origen :=
    if h : lista_nombres ≠ [] ∧ i < lista_nombres.length then
      (some (lista_nombres.get ⟨i, h.2⟩), Origen.lista)
    else
      (extraido, Origen.extraido)
  match par with
  | (some nombre, origen) =>
    if nombre = [] then (nombreGenerado (i + 1), Origen.generado) else (nombre, origen)
  | (none, _) => (nombreGenerado (i + 1), Origen.generado)

/-- The first candidate output filename for a page. -/
def nombreArchivoBase (prefijo nombre_limpio sufijo : List Char) : List Char :=
  prefijo ++ nombre_limpio ++ sufijo ++ ".pdf".data

/-- The n-th alternative output filename tried on collision. -/
def nombreArchivoCon (prefijo nombre_limpio sufijo : List Char) (contador : Nat) : List Char :=
  prefijo ++ nombre_limpio ++ "_".data ++ natStr contador ++ sufijo ++ ".pdf".data

/-- The collision loop of separar_certificados: while the current candidate
already exists, move to the next counter; fuel bounds the number of
iterations (one more than the number of existing files always suffices). -/
def resolverAux (existentes : List (List Char)) (mk : Nat → List Char) :
    Nat → Nat → List Char → List Char
  | 0, _, actual => actual
  | comb + 1, contador, actual =>
    if actual ∈ existentes then resolverAux existentes mk comb (contador + 1) (mk contador)
    else actual

/-- The output filename chosen for a page: the base name when free,
otherwise the first counter-suffixed name that does not exist yet. -/
def resolverNombreArchivo (existentes : List (List Char))
    (prefijo nombre_limpio sufijo : List Char) : List Char :=
  resolverAux existentes (nombreArchivoCon prefijo nombre_limpio sufijo)
    (existentes.length + 1) 1 (nombreArchivoBase prefijo nombre_limpio sufijo)

/-- The built-in default search patterns used when patrones.txt is absent. -/
def patronesPorDefecto : List (List Char) :=
  [(r"Se otorga el presente reconocimiento a:\s*\n?\s*(.+?)(?:\n|Por su)").data,
   (r"[Oo]torga(?:do)? a:\s*(.+?)(?:\n|$)").data,
   (r"[Cc]ertifica(?:do)? a:\s*(.+?)(?:\n|$)").data]

/-- One entry of the exitosos list of the run summary. -/
structure Exitoso where
  pagina : Nat
  nombre : List Char
  archivo : List Char
  origen : Origen
deriving DecidableEq, Repr

/-- One entry of the errores list of the run summary. -/
structure ErrorPagina where
  pagina : Nat
  error : List Char
deriving DecidableEq, Repr

/-- The resultados dictionary returned by separar_certificados. -/
structure Resultados where
  exitosos : List Exitoso
  errores : List ErrorPagina
  total : Nat
  pdf_origen : List Char
deriving DecidableEq, Repr

/-- The inputs of one run of separar_certificados, with the two effectful
dependencies abstracted as oracles: buscar is the regex engine (page index
and pattern to capture group 1 of the first case-insensitive match on that
page's text), and escribir is the PDF write (page index and output filename
to the error message when insert or save raises, none on success). -/
structure ContextoSep where
  lista_nombres : List (List Char)
  patrones : List (List Char)
  prefijo : List Char
  sufijo : List Char
  buscar : Nat → List Char → Option (List Char)
  escribir : Nat → List Char → Option (List Char)
  pdf_origen : List Char

/-- The loop state of separar_certificados: the filenames existing in the
output directory and the two accumulating summary lists. -/
structure EstadoSep where
  existentes : List (List Char)
  exitosos : List Exitoso
  errores : List ErrorPagina

/-- One iteration of the page loop of separar_certificados: resolve the
name, sanitize it, resolve collisions against the files existing now, then
either record a success (the written file now exists) or record the error. -/
def pasoSeparar (ctx : ContextoSep) (st : EstadoSep) (i : Nat) : EstadoSep :=
  let numero := i + 1
  let par := nombreParaPagina ctx.lista_nombres
    (extraer_nombre_de_pagina (ctx.buscar i) ctx.patrones) i
  let nombre_limpio := limpiar_nombre_archivo par.1
  let nombre_archivo := resolverNombreArchivo st.existentes ctx.prefijo nombre_limpio ctx.sufijo
  match ctx.escribir i nombre_archivo with
  | none =>
    { st with
      existentes := st.existentes ++ [nombre_archivo]
      exitosos := st.exitosos ++ [⟨numero, par.1, nombre_archivo, par.2⟩] }
  | some mensaje =>
    { st with errores := st.errores ++ [⟨numero, mensaje⟩] }

/-- separar_certificados: fold the page loop over the pages of the document
(0-based indices), starting from the filenames already existing in the
output directory, and assemble the run summary. -/
def separar_certificados (ctx : ContextoSep) (total_paginas : Nat)
    (existentes : List (List Char)) : Resultados :=
  let st := (List.range total_paginas).foldl (pasoSeparar ctx) ⟨existentes, [], []⟩
  ⟨st.exitosos, st.errores, total_paginas, ctx.pdf_origen⟩

/-- The exit-code decision of main for a single-file run: non-zero exactly
when the summary records page errors. -/
def codigoSalidaArchivo (resultado : Resultados) : Nat :=
  if resultado.errores = [] then 0 else 1

/-- The exit-code decision of main for a batch run: non-zero exactly when
procesar_carpeta_entrada returned no summaries at all. -/
def codigoSalidaCarpeta (resultados : List Resultados) : Nat :=
  if resultados = [] then 1 else 0

/-- str.lower, character by character. -/
def minusculas (l : List Char) : List Char := l.map Char.toLower

/-- The Excel extensions accepted by cargar_lista_nombres. -/
def extensionesExcel : List (List Char) := [".xlsx".data, ".xls".data]

/-- The list-comprehension filter of cargar_lista_nombres: keep entries
that are truthy, not the string nan after lowering, and not all blank. -/
def filtroNombres (columna : List (List Char)) : List (List Char) :=
  columna.filter (fun n => n ≠ [] && minusculas n ≠ "nan".data && recortar n ≠ [])

/-- The try-block body of cargar_lista_nombres: dispatch on the lowered
extension, read the first column (the two readers are abstracted as
oracles, failure being the raised message), and filter it; an unsupported
extension raises the format ValueError. -/
def cargarListaInterno (extension : List Char)
    (leerExcel leerCsv : Except (List Char) (List (List Char))) :
    Except (List Char) (List (List Char)) :=
  if extension ∈ extensionesExcel then leerExcel.map filtroNombres
  else if extension = ".csv".data then leerCsv.map filtroNombres
  else Except.error ("Formato de archivo no soportado: ".data ++ extension)

/-- cargar_lista_nombres: every exception of the try block is caught, the
error printed, and the empty list returned. -/
def cargar_lista_nombres (extension : List Char)
    (leerExcel leerCsv : Except (List Char) (List (List Char))) : List (List Char) :=
  match cargarListaInterno extension leerExcel leerCsv with
  | Except.ok nombres => nombres
  | Except.error _ => []

/-- Which statement of the page-writing try block raises, if any. -/
inductive FalloEscritura where
  | ninguno
  | alInsertar
  | alGuardar
deriving DecidableEq, Repr

/-- Open single-page output handles left after one iteration of the
per-page try/except of separar_certificados, starting from none:
fitz.open() opens the handle, and the only nuevo_pdf.close() call sits
after save inside the try block, so it runs only when neither insert_pdf
nor save raises; the except branch closes nothing. -/
def manejadoresTrasPagina (fallo : FalloEscritura) : Nat :=
  let abiertos := 1
  match fallo with
  | FalloEscritura.alInsertar => abiertos
  | FalloEscritura.alGuardar => abiertos
  | FalloEscritura.ninguno => abiertos - 1

/-- The bookkeeping invariant of the page loop after n iterations: page
numbers in each summary list are strictly increasing, lie in 1..n, every
page number in 1..n lands in exactly one of the two lists, and the list
lengths add up to n. -/
def invarianteResumen (st : EstadoSep) (n : Nat) : Prop :=
  List.Pairwise (· < ·) (st.exitosos.map Exitoso.pagina) ∧
  List.Pairwise (· < ·) (st.errores.map ErrorPagina.pagina) ∧
  (∀ p ∈ st.exitosos.map Exitoso.pagina, 1 ≤ p ∧ p ≤ n) ∧
  (∀ p ∈ st.errores.map ErrorPagina.pagina, 1 ≤ p ∧ p ≤ n) ∧
  (∀ p, 1 ≤ p → p ≤ n →
    p ∈ st.exitosos.map Exitoso.pagina ∨ p ∈ st.errores.map ErrorPagina.pagina) ∧
  (∀ p, ¬(p ∈ st.exitosos.map Exitoso.pagina ∧ p ∈ st.errores.map ErrorPagina.pagina)) ∧
  st.exitosos.length + st.errores.length = n

/-- The three-page end-to-end scenario: on page 1 a pattern captures
Jane Doe, on page 2 no pattern matches, on page 3 a pattern captures
Ana Ruiz; the supplied list has the single entry Bob Smith; every write
succeeds. -/
def ctxEscenario : ContextoSep :=
  { lista_nombres := ["Bob Smith".data]
    patrones := patronesPorDefecto
    prefijo := []
    sufijo := []
    buscar := fun i _ =>
      match i with
      | 0 => some ("Jane Doe".data)
      | 2 => some ("Ana Ruiz".data)
      | _ => none
    escribir := fun _ _ => none
    pdf_origen := "certificados.pdf".data }

/-- A run over a document whose only page fails to write: save raises. -/
def ctxFalloEscritura : ContextoSep :=
  { lista_nombres := []
    patrones := patronesPorDefecto
    prefijo := []
    sufijo := []
    buscar := fun _ _ => none
    escribir := fun _ _ => some ("no se pudo guardar".data)
    pdf_origen := "a.pdf".data }

theorem colapsarAux_inv (l : List Char) : ∀ b : Bool,
    (∀ c ∈ colapsarAux b l, c ∈ l ∨ c = ' ') ∧
    (∀ c ∈ colapsarAux b l, esEspacio c = true → c = ' ') ∧
    List.Chain' (fun x y => esEspacio x = false ∨ esEspacio y = false) (colapsarAux b l) ∧
    (∀ c, (colapsarAux true l).head? = some c → esEspacio c = false) := by
  induction l with
  | nil =>
    intro b
    refine ⟨by simp [colapsarAux], by simp [colapsarAux], by simp [colapsarAux],
      by simp [colapsarAux]⟩
  | cons c resto ih =>
    intro b
    by_cases hc : esEspacio c = true
    · have h4 : ∀ d, (colapsarAux true (c :: resto)).head? = some d → esEspacio d = false := by
        intro d hd
        rw [show colapsarAux true (c :: resto) = colapsarAux true resto by
          simp [colapsarAux, hc]] at hd
        exact (ih true).2.2.2 d hd
      cases b with
      | true =>
        have he : colapsarAux true (c :: resto) = colapsarAux true resto := by
          simp [colapsarAux, hc]
        refine ⟨?_, ?_, ?_, h4⟩
        · rw [he]; intro d hd
          rcases (ih true).1 d hd with h | h
          · exact Or.inl (List.mem_cons_of_mem c h)
          · exact Or.inr h
        · rw [he]; exact (ih true).2.1
        · rw [he]; exact (ih true).2.2.1
      | false =>
        have he : colapsarAux false (c :: resto) = ' ' :: colapsarAux true resto := by
          simp [colapsarAux, hc]
        refine ⟨?_, ?_, ?_, h4⟩
        · rw [he]; intro d hd
          rcases List.mem_cons.1 hd with h | h
          · exact Or.inr h
          · rcases (ih true).1 d h with h' | h'
            · exact Or.inl (List.mem_cons_of_mem c h')
            · exact Or.inr h'
        · rw [he]; intro d hd _
          rcases List.mem_cons.1 hd with h | h
          · exact h
          · exact (ih true).2.1 d h (by assumption)
        · rw [he, List.chain'_cons']
          refine ⟨?_, (ih true).2.2.1⟩
          intro y hy
          exact Or.inr ((ih true).2.2.2 y (Option.mem_def.1 hy))
    · have he : ∀ b' : Bool, colapsarAux b' (c :: resto) = c :: colapsarAux false resto := by
        intro b'; simp [colapsarAux, hc]
      refine ⟨?_, ?_, ?_, ?_⟩
      · rw [he b]; intro d hd
        rcases List.mem_cons.1 hd with h | h
        · exact Or.inl (h ▸ List.mem_cons_self c resto)
        · rcases (ih false).1 d h with h' | h'
          · exact Or.inl (List.mem_cons_of_mem c h')
          · exact Or.inr h'
      · rw [he b]; intro d hd hws
        rcases List.mem_cons.1 hd with h | h
        · exact absurd (h ▸ hws) (by simpa using hc)
        · exact (ih false).2.1 d h hws
      · rw [he b, List.chain'_cons']
        refine ⟨fun y _ => Or.inl (by simpa using hc), (ih false).2.2.1⟩
      · intro d hd
        rw [he true] at hd
        simp only [List.head?_cons, Option.some.injEq] at hd
        rw [← hd]
        simpa using hc

theorem colapsar_mem (l : List Char) : ∀ c ∈ colapsar l, c ∈ l ∨ c = ' ' :=
  (colapsarAux_inv l false).1

theorem colapsar_solo_espacio (l : List Char) :
    ∀ c ∈ colapsar l, esEspacio c = true → c = ' ' :=
  (colapsarAux_inv l false).2.1

theorem colapsar_chain (l : List Char) :
    List.Chain' (fun x y => esEspacio x = false ∨ esEspacio y = false) (colapsar l) :=
  (colapsarAux_inv l false).2.2.1

theorem recortarInfijo (l : List Char) : recortar l <:+: l := by
  have h1 := List.rdropWhile_prefix esEspacio (l.dropWhile esEspacio)
  have h2 := List.dropWhile_suffix esEspacio (l := l)
  exact h1.isInfix.trans h2.isInfix

theorem recortar_head (l : List Char) (c : Char) (h : (recortar l).head? = some c) :
    esEspacio c = false := by
  unfold recortar at h
  obtain ⟨t, ht⟩ := List.rdropWhile_prefix esEspacio (l.dropWhile esEspacio)
  have hne : l.dropWhile esEspacio ≠ [] := by
    intro hnil
    rw [hnil] at h
    simp [List.rdropWhile] at h
  have hcab : (l.dropWhile esEspacio).head? = some c := by
    rcases hr : (l.dropWhile esEspacio).rdropWhile esEspacio with _ | ⟨d, r⟩
    · rw [hr] at h; simp at h
    · rw [hr] at h ht
      simp only [List.head?_cons, Option.some.injEq] at h
      rw [← ht, h]
      simp
  have := List.head_dropWhile_not esEspacio l hne
  rw [List.head?_eq_head hne] at hcab
  simp only [Option.some.injEq] at hcab
  rw [hcab] at this
  simpa using this

theorem recortar_last (l : List Char) (c : Char) (h : (recortar l).getLast? = some c) :
    esEspacio c = false := by
  unfold recortar at h
  have hne : (l.dropWhile esEspacio).rdropWhile esEspacio ≠ [] := by
    intro hnil; rw [hnil] at h; simp at h
  have := List.rdropWhile_last_not esEspacio (l.dropWhile esEspacio) hne
  rw [List.getLast?_eq_getLast _ hne] at h
  simp only [Option.some.injEq] at h
  rw [h] at this
  simpa using this

theorem limpiar_eq (nombre : List Char) :
    limpiar_nombre_archivo nombre =
      if nombreRecortado nombre = [] then "certificado_sin_nombre".data
      else if (nombreRecortado nombre).length > 100 then (nombreRecortado nombre).take 100
      else nombreRecortado nombre := by
  show (if (if (nombreRecortado nombre).length > 100 then (nombreRecortado nombre).take 100
            else nombreRecortado nombre) = [] then "certificado_sin_nombre".data
        else if (nombreRecortado nombre).length > 100 then (nombreRecortado nombre).take 100
            else nombreRecortado nombre) = _
  by_cases hnil : nombreRecortado nombre = []
  · simp [hnil]
  · by_cases hlen : (nombreRecortado nombre).length > 100
    · have htk : (nombreRecortado nombre).take 100 ≠ [] := by
        simp [List.take_eq_nil_iff, hnil]
      simp [hnil, hlen, htk]
    · simp [hnil, hlen]

theorem natStrAux_append (comb : Nat) : ∀ (n : Nat) (acc : List Char),
    natStrAux comb n acc = natStrAux comb n [] ++ acc := by
  induction comb with
  | zero => intro n acc; simp [natStrAux]
  | succ f ih =>
    intro n acc
    by_cases hn : n = 0
    · simp [natStrAux, hn]
    · rw [show natStrAux (f + 1) n acc = natStrAux f (n / 10) (digitoChar (n % 10) :: acc) by
        simp [natStrAux, hn]]
      rw [show natStrAux (f + 1) n [] = natStrAux f (n / 10) [digitoChar (n % 10)] by
        simp [natStrAux, hn]]
      rw [ih (n / 10) (digitoChar (n % 10) :: acc), ih (n / 10) [digitoChar (n % 10)]]
      simp

theorem natStrAux_fuel (n : Nat) : ∀ f g : Nat, n ≤ f → n ≤ g →
    natStrAux f n [] = natStrAux g n [] := by
  induction n using Nat.strong_induction_on with
  | _ n ih =>
    intro f g hf hg
    by_cases hn : n = 0
    · subst hn; cases f <;> cases g <;> simp [natStrAux]
    · obtain ⟨f', rfl⟩ : ∃ f', f = f' + 1 := ⟨f - 1, by omega⟩
      obtain ⟨g', rfl⟩ : ∃ g', g = g' + 1 := ⟨g - 1, by omega⟩
      rw [show natStrAux (f' + 1) n [] = natStrAux f' (n / 10) [digitoChar (n % 10)] by
        simp [natStrAux, hn]]
      rw [show natStrAux (g' + 1) n [] = natStrAux g' (n / 10) [digitoChar (n % 10)] by
        simp [natStrAux, hn]]
      rw [natStrAux_append f' (n / 10), natStrAux_append g' (n / 10)]
      have hdiv : n / 10 < n := Nat.div_lt_self (by omega) (by omega)
      rw [ih (n / 10) hdiv f' g' (by omega) (by omega)]

theorem natStr_paso (n : Nat) (hn : n ≠ 0) :
    natStrAux n n [] = natStrAux (n / 10) (n / 10) [] ++ [digitoChar (n % 10)] := by
  obtain ⟨f, rfl⟩ : ∃ f, n = f + 1 := ⟨n - 1, by omega⟩
  rw [show natStrAux (f + 1) (f + 1) [] = natStrAux f ((f + 1) / 10) [digitoChar ((f + 1) % 10)] by
    simp [natStrAux]]
  rw [natStrAux_append f ((f + 1) / 10)]
  have hdiv : (f + 1) / 10 < f + 1 := Nat.div_lt_self (by omega) (by omega)
  rw [natStrAux_fuel ((f + 1) / 10) f ((f + 1) / 10) (by omega) (by omega)]

theorem digitoChar_inj_menor : ∀ a < 10, ∀ b < 10, digitoChar a = digitoChar b → a = b := by
  decide

theorem dig_ne_nil (n : Nat) (hn : n ≠ 0) : natStrAux n n [] ≠ [] := by
  rw [natStr_paso n hn]; simp

theorem dig_inj (n : Nat) : ∀ m : Nat, n ≠ 0 → m ≠ 0 →
    natStrAux n n [] = natStrAux m m [] → n = m := by
  induction n using Nat.strong_induction_on with
  | _ n ih =>
    intro m hn hm h
    rw [natStr_paso n hn, natStr_paso m hm] at h
    obtain ⟨hpre, hdig⟩ := List.append_inj' h (by simp)
    have hmod : n % 10 = m % 10 := by
      simp only [List.cons.injEq, and_true] at hdig
      exact digitoChar_inj_menor (n % 10) (Nat.mod_lt n (by omega)) (m % 10)
        (Nat.mod_lt m (by omega)) hdig
    have hN := Nat.div_add_mod n 10
    have hM := Nat.div_add_mod m 10
    by_cases hn10 : n / 10 = 0
    · by_cases hm10 : m / 10 = 0
      · omega
      · exfalso
        rw [hn10] at hpre
        simp only [natStrAux] at hpre
        exact dig_ne_nil (m / 10) hm10 hpre.symm
    · by_cases hm10 : m / 10 = 0
      · exfalso
        rw [hm10] at hpre
        simp only [natStrAux] at hpre
        exact dig_ne_nil (n / 10) hn10 hpre
      · have hdivn : n / 10 < n := Nat.div_lt_self (by omega) (by omega)
        have := ih (n / 10) hdivn (m / 10) hn10 hm10 hpre
        omega

theorem natStr_ne_nil (n : Nat) : natStr n ≠ [] := by
  unfold natStr
  by_cases hn : n = 0
  · simp [hn]
  · simp only [hn, if_false]
    exact dig_ne_nil n hn

theorem natStr_injective : Function.Injective natStr := by
  intro n m h
  unfold natStr at h
  by_cases hn : n = 0 <;> by_cases hm : m = 0
  · omega
  · exfalso
    simp only [hn, hm, if_true, if_false] at h
    rw [natStr_paso m hm] at h
    have hpre : natStrAux (m / 10) (m / 10) [] = [] := by
      have hlen := congrArg List.length h
      simp only [List.length_append, List.length_cons, List.length_nil] at hlen
      exact List.length_eq_zero.1 (by omega)
    have hm10 : m / 10 = 0 := by
      by_contra hm10
      exact dig_ne_nil (m / 10) hm10 hpre
    rw [hpre] at h
    simp only [List.nil_append, List.cons.injEq] at h
    have : m % 10 = 0 := by
      have h0 : digitoChar (m % 10) = digitoChar 0 := by
        rw [← h.1]; rfl
      exact digitoChar_inj_menor (m % 10) (Nat.mod_lt m (by omega)) 0 (by omega) h0
    omega
  · exfalso
    simp only [hn, hm, if_true, if_false] at h
    rw [natStr_paso n hn] at h
    have hpre : natStrAux (n / 10) (n / 10) [] = [] := by
      have hlen := congrArg List.length h
      simp only [List.length_append, List.length_cons, List.length_nil] at hlen
      exact List.length_eq_zero.1 (by omega)
    have hn10 : n / 10 = 0 := by
      by_contra hn10
      exact dig_ne_nil (n / 10) hn10 hpre
    rw [hpre] at h
    simp only [List.nil_append, List.cons.injEq] at h
    have : n % 10 = 0 := by
      have h0 : digitoChar (n % 10) = digitoChar 0 := by
        rw [h.1]; rfl
      exact digitoChar_inj_menor (n % 10) (Nat.mod_lt n (by omega)) 0 (by omega) h0
    omega
  · simp only [hn, hm, if_false] at h
    exact dig_inj n m hn hm h

theorem resolverAux_libre (existentes : List (List Char)) (mk : Nat → List Char)
    (comb contador : Nat) (actual : List Char) (h : actual ∉ existentes) :
    resolverAux existentes mk comb contador actual = actual := by
  cases comb <;> simp [resolverAux, h]

theorem resolverAux_spec (existentes : List (List Char)) (mk : Nat → List Char) :
    ∀ (comb contador : Nat) (actual : List Char),
      1 ≤ contador →
      (∀ m, 1 ≤ m → m < contador → mk m ∈ existentes) →
      (∃ n, contador ≤ n ∧ n < contador + comb ∧ mk n ∉ existentes) →
      actual ∈ existentes →
      ∃ n, 1 ≤ n ∧ mk n ∉ existentes ∧
        (∀ m, 1 ≤ m → m < n → mk m ∈ existentes) ∧
        resolverAux existentes mk comb contador actual = mk n := by
  intro comb
  induction comb with
  | zero =>
    intro contador actual _ _ hex _
    obtain ⟨n, h1, h2, _⟩ := hex
    omega
  | succ f ih =>
    intro contador actual hc hist hex hact
    obtain ⟨n, hn1, hn2, hn3⟩ := hex
    rw [show resolverAux existentes mk (f + 1) contador actual
        = resolverAux existentes mk f (contador + 1) (mk contador) by
      simp [resolverAux, hact]]
    by_cases hmk : mk contador ∈ existentes
    · refine ih (contador + 1) (mk contador) (by omega) ?_ ?_ hmk
      · intro m hm1 hm2
        rcases Nat.lt_or_ge m contador with h | h
        · exact hist m hm1 h
        · have hmc : m = contador := by omega
          rw [hmc]; exact hmk
      · refine ⟨n, ?_, by omega, hn3⟩
        have hne : n ≠ contador := fun he => hn3 (he ▸ hmk)
        omega
    · exact ⟨contador, hc, hmk, hist, resolverAux_libre _ _ _ _ _ hmk⟩

theorem existeLibre (existentes : List (List Char)) (mk : Nat → List Char)
    (hinj : Function.Injective mk) :
    ∃ n, 1 ≤ n ∧ n ≤ existentes.length + 1 ∧ mk n ∉ existentes := by
  by_contra h
  push_neg at h
  have hsub : (Finset.range (existentes.length + 1)).image (fun i => mk (i + 1))
      ⊆ existentes.toFinset := by
    intro x hx
    simp only [Finset.mem_image, Finset.mem_range] at hx
    obtain ⟨i, hi, rfl⟩ := hx
    rw [List.mem_toFinset]
    exact h (i + 1) (by omega) (by omega)
  have hcard := Finset.card_le_card hsub
  rw [Finset.card_image_of_injective _ (fun a b hab => by
    have := hinj hab; omega)] at hcard
  rw [Finset.card_range] at hcard
  have := existentes.toFinset_card_le
  omega

theorem nombreArchivoCon_inj (prefijo nombre_limpio sufijo : List Char) :
    Function.Injective (nombreArchivoCon prefijo nombre_limpio sufijo) := by
  intro a b h
  unfold nombreArchivoCon at h
  have h1 := List.append_cancel_right (List.append_cancel_right h)
  have h2 := List.append_cancel_left h1
  exact natStr_injective h2

theorem base_ne_con (prefijo nombre_limpio sufijo : List Char) (k : Nat) :
    nombreArchivoBase prefijo nombre_limpio sufijo ≠
      nombreArchivoCon prefijo nombre_limpio sufijo k := by
  intro h
  have hlen := congrArg List.length h
  have hk : 0 < (natStr k).length := List.length_pos.2 (natStr_ne_nil k)
  have hg : ("_".data).length = 1 := rfl
  simp only [nombreArchivoBase, nombreArchivoCon, List.length_append] at hlen
  omega

theorem resolverNombreArchivo_spec (existentes : List (List Char))
    (prefijo nombre_limpio sufijo : List Char) :
    resolverNombreArchivo existentes prefijo nombre_limpio sufijo ∉ existentes ∧
    (nombreArchivoBase prefijo nombre_limpio sufijo ∉ existentes →
      resolverNombreArchivo existentes prefijo nombre_limpio sufijo =
        nombreArchivoBase prefijo nombre_limpio sufijo) ∧
    (nombreArchivoBase prefijo nombre_limpio sufijo ∈ existentes →
      ∃ n, 1 ≤ n ∧
        resolverNombreArchivo existentes prefijo nombre_limpio sufijo =
          nombreArchivoCon prefijo nombre_limpio sufijo n ∧
        nombreArchivoCon prefijo nombre_limpio sufijo n ∉ existentes ∧
        ∀ m, 1 ≤ m → m < n → nombreArchivoCon prefijo nombre_limpio sufijo m ∈ existentes) := by
  by_cases hb : nombreArchivoBase prefijo nombre_limpio sufijo ∈ existentes
  · have hspec := resolverAux_spec existentes (nombreArchivoCon prefijo nombre_limpio sufijo)
      (existentes.length + 1) 1 (nombreArchivoBase prefijo nombre_limpio sufijo)
      (by omega) (by omega)
      (by
        obtain ⟨n, h1, h2, h3⟩ := existeLibre existentes _
          (nombreArchivoCon_inj prefijo nombre_limpio sufijo)
        exact ⟨n, h1, by omega, h3⟩)
      hb
    obtain ⟨n, hn1, hn2, hn3, hn4⟩ := hspec
    refine ⟨?_, fun hc => absurd hb hc, fun _ => ⟨n, hn1, hn4, hn2, hn3⟩⟩
    rw [show resolverNombreArchivo existentes prefijo nombre_limpio sufijo =
      resolverAux existentes (nombreArchivoCon prefijo nombre_limpio sufijo)
        (existentes.length + 1) 1 (nombreArchivoBase prefijo nombre_limpio sufijo) from rfl]
    rw [hn4]
    exact hn2
  · have hfree : resolverNombreArchivo existentes prefijo nombre_limpio sufijo =
        nombreArchivoBase prefijo nombre_limpio sufijo :=
      resolverAux_libre _ _ _ _ _ hb
    exact ⟨hfree ▸ hb, fun _ => hfree, fun hc => absurd hc hb⟩

theorem extraer_cons (buscar : List Char → Option (List Char)) (patron : List Char)
    (resto : List (List Char)) :
    extraer_nombre_de_pagina buscar (patron :: resto) =
      match capturaBuena buscar patron with
      | some w => some w
      | none => extraer_nombre_de_pagina buscar resto := by
  simp only [extraer_nombre_de_pagina, capturaBuena]
  cases hb : buscar patron with
  | none => simp
  | some g =>
    simp only [Option.bind_some]
    by_cases hl : (limpiarCaptura g).length > 2
    · simp [hl]
    · simp [hl]

theorem extraer_caracterizacion (buscar : List Char → Option (List Char)) :
    ∀ patrones : List (List Char),
      (∀ v, extraer_nombre_de_pagina buscar patrones = some v ↔
        ∃ i, ∃ h : i < patrones.length,
          capturaBuena buscar (patrones.get ⟨i, h⟩) = some v ∧
          ∀ patron ∈ patrones.take i, capturaBuena buscar patron = none) ∧
      (extraer_nombre_de_pagina buscar patrones = none ↔
        ∀ patron ∈ patrones, capturaBuena buscar patron = none) := by
  intro patrones
  induction patrones with
  | nil =>
    constructor
    · intro v
      simp [extraer_nombre_de_pagina]
    · simp [extraer_nombre_de_pagina]
  | cons patron resto ih =>
    cases hcb : capturaBuena buscar patron with
    | some w =>
      have hred : extraer_nombre_de_pagina buscar (patron :: resto) = some w := by
        rw [extraer_cons buscar patron resto, hcb]
      constructor
      · intro v
        rw [hred]
        constructor
        · intro hv
          simp only [Option.some.injEq] at hv
          refine ⟨0, by simp, ?_, by simp⟩
          show capturaBuena buscar patron = some v
          rw [hcb, hv]
        · rintro ⟨i, hi, hget, hmin⟩
          cases i with
          | zero =>
            have hg : capturaBuena buscar patron = some v := hget
            rw [hcb] at hg
            exact hg.symm ▸ rfl
          | succ j =>
            exfalso
            have hp : patron ∈ (patron :: resto).take (j + 1) := by
              simp [List.take_succ_cons]
            have := hmin patron hp
            rw [hcb] at this
            simp at this
      · rw [hred]
        constructor
        · intro h; simp at h
        · intro h
          have := h patron (List.mem_cons_self patron resto)
          rw [hcb] at this
          simp at this
    | none =>
      have hred : extraer_nombre_de_pagina buscar (patron :: resto) =
          extraer_nombre_de_pagina buscar resto := by
        rw [extraer_cons buscar patron resto, hcb]
      constructor
      · intro v
        rw [hred, (ih.1 v)]
        constructor
        · rintro ⟨i, hi, hget, hmin⟩
          refine ⟨i + 1, by simpa using Nat.succ_lt_succ hi, ?_, ?_⟩
          · simpa using hget
          · intro q hq
            rw [List.take_succ_cons] at hq
            rcases List.mem_cons.1 hq with h | h
            · rw [h]; exact hcb
            · exact hmin q h
        · rintro ⟨i, hi, hget, hmin⟩
          cases i with
          | zero =>
            have hg : capturaBuena buscar patron = some v := hget
            rw [hcb] at hg
            simp at hg
          | succ j =>
            refine ⟨j, by simpa using Nat.lt_of_succ_lt_succ hi, ?_, ?_⟩
            · simpa using hget
            · intro q hq
              apply hmin q
              rw [List.take_succ_cons]
              exact List.mem_cons_of_mem patron hq
      · rw [hred, ih.2]
        constructor
        · intro h q hq
          rcases List.mem_cons.1 hq with hh | hh
          · rw [hh]; exact hcb
          · exact h q hh
        · intro h q hq
          exact h q (List.mem_cons_of_mem patron hq)

theorem nombreParaPagina_entrada (lista : List (List Char)) (extraido : Option (List Char))
    (i : Nat) (h : i < lista.length) (hne : lista.get ⟨i, h⟩ ≠ []) :
    nombreParaPagina lista extraido i = (lista.get ⟨i, h⟩, Origen.lista) := by
  have hl : lista ≠ [] := by
    intro he
    rw [he] at h
    simp at h
  unfold nombreParaPagina
  rw [dif_pos ⟨hl, h⟩]
  exact if_neg hne

theorem nombreParaPagina_sin_lista (extraido : Option (List Char)) (i : Nat) :
    nombreParaPagina [] extraido i =
      (match extraido with
       | some nombre =>
         if nombre = [] then (nombreGenerado (i + 1), Origen.generado)
         else (nombre, Origen.extraido)
       | none => (nombreGenerado (i + 1), Origen.generado)) := by
  unfold nombreParaPagina
  rw [dif_neg (by simp)]
  cases extraido <;> rfl

theorem base_termina_pdf (prefijo nombre_limpio sufijo : List Char) :
    ".pdf".data <:+ nombreArchivoBase prefijo nombre_limpio sufijo :=
  ⟨prefijo ++ nombre_limpio ++ sufijo, by simp [nombreArchivoBase]⟩

theorem con_termina_pdf (prefijo nombre_limpio sufijo : List Char) (k : Nat) :
    ".pdf".data <:+ nombreArchivoCon prefijo nombre_limpio sufijo k :=
  ⟨prefijo ++ nombre_limpio ++ "_".data ++ natStr k ++ sufijo, by simp [nombreArchivoCon]⟩

theorem resolver_congr (e1 e2 : List (List Char)) (prefijo nombre_limpio sufijo : List Char)
    (hmem : ∀ x : List Char, ".pdf".data <:+ x → (x ∈ e1 ↔ x ∈ e2)) :
    resolverNombreArchivo e1 prefijo nombre_limpio sufijo =
      resolverNombreArchivo e2 prefijo nombre_limpio sufijo := by
  obtain ⟨hfree1, hbase1, hcol1⟩ := resolverNombreArchivo_spec e1 prefijo nombre_limpio sufijo
  obtain ⟨hfree2, hbase2, hcol2⟩ := resolverNombreArchivo_spec e2 prefijo nombre_limpio sufijo
  by_cases hb : nombreArchivoBase prefijo nombre_limpio sufijo ∈ e1
  · have hb2 : nombreArchivoBase prefijo nombre_limpio sufijo ∈ e2 :=
      (hmem _ (base_termina_pdf prefijo nombre_limpio sufijo)).1 hb
    obtain ⟨n1, hn1, he1, hlibre1, hmin1⟩ := hcol1 hb
    obtain ⟨n2, hn2, he2, hlibre2, hmin2⟩ := hcol2 hb2
    have hn : n1 = n2 := by
      rcases Nat.lt_trichotomy n1 n2 with h | h | h
      · exact absurd ((hmem _ (con_termina_pdf prefijo nombre_limpio sufijo n1)).2
          (hmin2 n1 hn1 h)) hlibre1
      · exact h
      · exact absurd ((hmem _ (con_termina_pdf prefijo nombre_limpio sufijo n2)).1
          (hmin1 n2 hn2 h)) hlibre2
    rw [he1, he2, hn]
  · have hb2 : nombreArchivoBase prefijo nombre_limpio sufijo ∉ e2 := fun h =>
      hb ((hmem _ (base_termina_pdf prefijo nombre_limpio sufijo)).2 h)
    rw [hbase1 hb, hbase2 hb2]

theorem foldl_range_succ {α : Type} (f : α → Nat → α) (init : α) (n : Nat) :
    (List.range (n + 1)).foldl f init = f ((List.range n).foldl f init) n := by
  rw [List.range_succ, List.foldl_append]
  rfl

theorem pasoSeparar_congr (ctx : ContextoSep) (e1 e2 : List (List Char))
    (h1 : ∀ x ∈ e1, ¬ (".pdf".data <:+ x)) (h2 : ∀ x ∈ e2, ¬ (".pdf".data <:+ x))
    (st1 st2 : EstadoSep) (agregados : List (List Char))
    (hx1 : st1.existentes = e1 ++ agregados) (hx2 : st2.existentes = e2 ++ agregados)
    (hex : st1.exitosos = st2.exitosos) (herr : st1.errores = st2.errores) (i : Nat) :
    ∃ agregados2 : List (List Char),
      (pasoSeparar ctx st1 i).existentes = e1 ++ agregados2 ∧
      (pasoSeparar ctx st2 i).existentes = e2 ++ agregados2 ∧
      (pasoSeparar ctx st1 i).exitosos = (pasoSeparar ctx st2 i).exitosos ∧
      (pasoSeparar ctx st1 i).errores = (pasoSeparar ctx st2 i).errores := by
  have hna : resolverNombreArchivo st1.existentes ctx.prefijo
      (limpiar_nombre_archivo (nombreParaPagina ctx.lista_nombres
        (extraer_nombre_de_pagina (ctx.buscar i) ctx.patrones) i).1) ctx.sufijo =
      resolverNombreArchivo st2.existentes ctx.prefijo
      (limpiar_nombre_archivo (nombreParaPagina ctx.lista_nombres
        (extraer_nombre_de_pagina (ctx.buscar i) ctx.patrones) i).1) ctx.sufijo := by
    apply resolver_congr
    intro x hpdf
    rw [hx1, hx2]
    simp only [List.mem_append]
    constructor
    · rintro (hx | hx)
      · exact absurd hpdf (h1 x hx)
      · exact Or.inr hx
    · rintro (hx | hx)
      · exact absurd hpdf (h2 x hx)
      · exact Or.inr hx
  rw [hx1, hx2] at hna
  cases hesc : ctx.escribir i (resolverNombreArchivo (e2 ++ agregados) ctx.prefijo
      (limpiar_nombre_archivo (nombreParaPagina ctx.lista_nombres
        (extraer_nombre_de_pagina (ctx.buscar i) ctx.patrones) i).1) ctx.sufijo) with
  | none =>
    refine ⟨agregados ++ [resolverNombreArchivo (e2 ++ agregados) ctx.prefijo
      (limpiar_nombre_archivo (nombreParaPagina ctx.lista_nombres
        (extraer_nombre_de_pagina (ctx.buscar i) ctx.patrones) i).1) ctx.sufijo],
      ?_, ?_, ?_, ?_⟩
    all_goals simp [pasoSeparar, hx1, hx2, hna, hesc, hex, herr]
  | some mensaje =>
    refine ⟨agregados, ?_, ?_, ?_, ?_⟩
    all_goals simp [pasoSeparar, hx1, hx2, hna, hesc, hex, herr]

theorem separar_purgado_aux (ctx : ContextoSep) (e1 e2 : List (List Char))
    (h1 : ∀ x ∈ e1, ¬ (".pdf".data <:+ x)) (h2 : ∀ x ∈ e2, ¬ (".pdf".data <:+ x)) :
    ∀ n : Nat, ∃ agregados : List (List Char),
      ((List.range n).foldl (pasoSeparar ctx) ⟨e1, [], []⟩).existentes = e1 ++ agregados ∧
      ((List.range n).foldl (pasoSeparar ctx) ⟨e2, [], []⟩).existentes = e2 ++ agregados ∧
      ((List.range n).foldl (pasoSeparar ctx) ⟨e1, [], []⟩).exitosos =
        ((List.range n).foldl (pasoSeparar ctx) ⟨e2, [], []⟩).exitosos ∧
      ((List.range n).foldl (pasoSeparar ctx) ⟨e1, [], []⟩).errores =
        ((List.range n).foldl (pasoSeparar ctx) ⟨e2, [], []⟩).errores := by
  intro n
  induction n with
  | zero => exact ⟨[], by simp, by simp, rfl, rfl⟩
  | succ k ih =>
    obtain ⟨ag, hag1, hag2, hexi, herri⟩ := ih
    simp only [foldl_range_succ]
    exact pasoSeparar_congr ctx e1 e2 h1 h2 _ _ ag hag1 hag2 hexi herri k

theorem pasoSeparar_invariante (ctx : ContextoSep) (st : EstadoSep) (k : Nat)
    (h : invarianteResumen st k) : invarianteResumen (pasoSeparar ctx st k) (k + 1) := by
  obtain ⟨hp1, hp2, hb1, hb2, hcov, hdis, hlen⟩ := h
  unfold pasoSeparar
  cases hesc : ctx.escribir k (resolverNombreArchivo st.existentes ctx.prefijo
      (limpiar_nombre_archivo (nombreParaPagina ctx.lista_nombres
        (extraer_nombre_de_pagina (ctx.buscar k) ctx.patrones) k).1) ctx.sufijo) with
  | none =>
    simp only [hesc]
    refine ⟨?_, ?_, ?_, ?_, ?_, ?_, ?_⟩
    · simp only [List.map_append]
      refine List.pairwise_append.2 ⟨hp1, by simp, ?_⟩
      intro a ha b hb
      simp only [List.map_cons, List.map_nil, List.mem_singleton] at hb
      have := hb1 a ha
      omega
    · exact hp2
    · intro p hp
      simp only [List.map_append, List.mem_append, List.map_cons, List.map_nil,
        List.mem_singleton] at hp
      rcases hp with hp | hp
      · have := hb1 p hp; omega
      · omega
    · intro p hp
      have := hb2 p hp; omega
    · intro p h1 h2
      rcases Nat.lt_or_ge p (k + 1) with hlt | hge
      · rcases hcov p h1 (by omega) with hc | hc
        · exact Or.inl (by simp only [List.map_append, List.mem_append]; exact Or.inl hc)
        · exact Or.inr hc
      · have hpk : p = k + 1 := by omega
        refine Or.inl ?_
        simp only [List.map_append, List.mem_append, List.map_cons, List.map_nil,
          List.mem_singleton]
        exact Or.inr (by omega)
    · intro p hp
      obtain ⟨hpe, hperr⟩ := hp
      simp only [List.map_append, List.mem_append, List.map_cons, List.map_nil,
        List.mem_singleton] at hpe
      rcases hpe with hpe | hpe
      · exact hdis p ⟨hpe, hperr⟩
      · have := hb2 p hperr; omega
    · simp only [List.length_append, List.length_cons, List.length_nil]
      omega
  | some mensaje =>
    simp only [hesc]
    refine ⟨hp1, ?_, ?_, ?_, ?_, ?_, ?_⟩
    · simp only [List.map_append]
      refine List.pairwise_append.2 ⟨hp2, by simp, ?_⟩
      intro a ha b hb
      simp only [List.map_cons, List.map_nil, List.mem_singleton] at hb
      have := hb2 a ha
      omega
    · intro p hp
      have := hb1 p hp; omega
    · intro p hp
      simp only [List.map_append, List.mem_append, List.map_cons, List.map_nil,
        List.mem_singleton] at hp
      rcases hp with hp | hp
      · have := hb2 p hp; omega
      · omega
    · intro p h1 h2
      rcases Nat.lt_or_ge p (k + 1) with hlt | hge
      · rcases hcov p h1 (by omega) with hc | hc
        · exact Or.inl hc
        · exact Or.inr (by simp only [List.map_append, List.mem_append]; exact Or.inl hc)
      · have hpk : p = k + 1 := by omega
        refine Or.inr ?_
        simp only [List.map_append, List.mem_append, List.map_cons, List.map_nil,
          List.mem_singleton]
        exact Or.inr (by omega)
    · intro p hp
      obtain ⟨hpe, hperr⟩ := hp
      simp only [List.map_append, List.mem_append, List.map_cons, List.map_nil,
        List.mem_singleton] at hperr
      rcases hperr with hperr | hperr
      · exact hdis p ⟨hpe, hperr⟩
      · have := hb1 p hpe; omega
    · simp only [List.length_append, List.length_cons, List.length_nil]
      omega

theorem separar_particion_aux (ctx : ContextoSep) (existentes : List (List Char)) :
    ∀ n : Nat,
      invarianteResumen ((List.range n).foldl (pasoSeparar ctx) ⟨existentes, [], []⟩) n := by
  intro n
  induction n with
  | zero =>
    refine ⟨by simp, by simp, by simp, by simp, ?_, by simp, by simp⟩
    intro p h1 h2
    omega
  | succ k ih =>
    rw [foldl_range_succ]
    exact pasoSeparar_invariante ctx _ k ih

theorem chain_sin_espacio (l : List Char) (h : ' ' ∉ l) :
    List.Chain' (fun x y => x ≠ ' ' ∨ y ≠ ' ') l := by
  induction l with
  | nil => simp
  | cons c r ih =>
    rw [List.chain'_cons']
    exact ⟨fun y _ => Or.inl (fun he => h (he ▸ List.mem_cons_self c r)),
      ih fun hm => h (List.mem_cons_of_mem c hm)⟩

theorem chain_espacios (l : List Char)
    (h : List.Chain' (fun x y => esEspacio x = false ∨ esEspacio y = false) l) :
    List.Chain' (fun x y => x ≠ ' ' ∨ y ≠ ' ') l := by
  refine h.imp ?_
  intro a b hab
  rcases hab with ha | hb
  · exact Or.inl fun he => absurd (he ▸ ha) (by decide)
  · exact Or.inr fun he => absurd (he ▸ hb) (by decide)

theorem nombreRecortado_mem (nombre : List Char) (c : Char)
    (hc : c ∈ nombreRecortado nombre) : c ∉ caracteresReservados := by
  unfold nombreRecortado at hc
  have h1 : c ∈ colapsar (nombre.filter fun d => !(caracteresReservados.contains d)) :=
    (recortarInfijo _).sublist.subset hc
  rcases colapsar_mem _ c h1 with h | h
  · intro habs
    have h2 := List.of_mem_filter h
    simp only [Bool.not_eq_true'] at h2
    have h3 : List.elem c caracteresReservados = false := h2
    rw [List.elem_eq_true_of_mem habs] at h3
    exact Bool.noConfusion h3
  · rw [h]; decide

theorem nombreRecortado_chain (nombre : List Char) :
    List.Chain' (fun x y => esEspacio x = false ∨ esEspacio y = false)
      (nombreRecortado nombre) :=
  List.Chain'.infix (colapsar_chain _) (recortarInfijo _)

theorem head_take_cien (l : List Char) (c : Char)
    (h : (l.take 100).head? = some c) : l.head? = some c := by
  cases l with
  | nil => simp at h
  | cons d r =>
    rw [show (100 : Nat) = 99 + 1 from rfl, List.take_succ_cons] at h
    simpa using h

/-- C1 (amended): limpiar_nombre_archivo always returns a string free of the
reserved characters, with no run of two consecutive spaces, no leading
whitespace, length at most 100, equal to the placeholder whenever the
cleaned name would otherwise be empty, and free of trailing whitespace
whenever the cleaned name did not exceed 100 characters (truncation at 100
can leave a single trailing space). -/
theorem limpiar_nombre_archivo_propiedades (nombre : List Char) :
    (∀ c ∈ limpiar_nombre_archivo nombre, c ∉ caracteresReservados) ∧
    List.Chain' (fun x y => x ≠ ' ' ∨ y ≠ ' ') (limpiar_nombre_archivo nombre) ∧
    (∀ c, (limpiar_nombre_archivo nombre).head? = some c → esEspacio c = false) ∧
    (limpiar_nombre_archivo nombre).length ≤ 100 ∧
    (nombreRecortado nombre = [] →
      limpiar_nombre_archivo nombre = "certificado_sin_nombre".data) ∧
    ((nombreRecortado nombre).length ≤ 100 →
      ∀ c, (limpiar_nombre_archivo nombre).getLast? = some c → esEspacio c = false) := by
  rw [limpiar_eq]
  by_cases hnil : nombreRecortado nombre = []
  · rw [if_pos hnil]
    refine ⟨by decide, chain_sin_espacio _ (by decide), ?_, by decide, fun _ => rfl, fun _ => ?_⟩
    · intro c hc
      have h : some 'c' = some c := hc
      cases h
      decide
    · intro c hc
      have h : some 'e' = some c := hc
      cases h
      decide
  · rw [if_neg hnil]
    by_cases hlen : (nombreRecortado nombre).length > 100
    · rw [if_pos hlen]
      refine ⟨?_, ?_, ?_, List.length_take_le 100 _, fun h => absurd h hnil,
        fun h => absurd hlen (by omega)⟩
      · intro c hc
        exact nombreRecortado_mem nombre c (List.take_subset 100 _ hc)
      · have hpre := List.take_prefix 100 (nombreRecortado nombre)
        have htomado := List.Chain'.prefix (nombreRecortado_chain nombre) hpre
        exact chain_espacios _ htomado
      · intro c hc
        exact recortar_head _ c (head_take_cien _ c hc)
    · rw [if_neg hlen]
      exact ⟨nombreRecortado_mem nombre, chain_espacios _ (nombreRecortado_chain nombre),
        fun c hc => recortar_head _ c hc, by omega, fun h => absurd h hnil,
        fun _ c hc => recortar_last _ c hc⟩

/-- C1 is false as stated: after truncation to 100 characters the result
can end in a space (input of 99 letters, a space and one more letter), and
an input equal to the placeholder itself reproduces the placeholder even
though the cleaned result is not empty, so the placeholder equality is not
an exact characterisation. -/
theorem limpiar_nombre_archivo_contraejemplo :
    (limpiar_nombre_archivo (List.replicate 99 'a' ++ [' ', 'b'])).getLast? = some ' ' ∧
    esEspacio ' ' = true ∧
    limpiar_nombre_archivo ("certificado_sin_nombre".data) = "certificado_sin_nombre".data ∧
    nombreRecortado ("certificado_sin_nombre".data) ≠ [] := by
  refine ⟨by decide, by decide, by decide, by decide⟩

/-- Witness for C1: a concrete short input exercises the trailing-space
guarantee, and a concrete all-reserved input exercises the placeholder
branch. -/
theorem limpiar_nombre_archivo_testigo :
    ((nombreRecortado ("  Jane<>/Doe  ".data)).length ≤ 100 ∧
      (∀ c, (limpiar_nombre_archivo ("  Jane<>/Doe  ".data)).getLast? = some c →
        esEspacio c = false)) ∧
    (nombreRecortado ("<>??**".data) = [] ∧
      limpiar_nombre_archivo ("<>??**".data) = "certificado_sin_nombre".data) :=
  ⟨⟨by decide, (limpiar_nombre_archivo_propiedades ("  Jane<>/Doe  ".data)).2.2.2.2.2 (by decide)⟩,
   ⟨by decide, (limpiar_nombre_archivo_propiedades ("<>??**".data)).2.2.2.2.1 (by decide)⟩⟩

/-- C2 (amended): when page index i is a valid index into the supplied
name list and the entry there is a non-empty string, that entry is the
name used for the page, with provenance lista, taking precedence over
extraction and over the generated placeholder. -/
theorem lista_precedencia (lista : List (List Char)) (extraido : Option (List Char))
    (i : Nat) (h : i < lista.length) (hne : lista.get ⟨i, h⟩ ≠ []) :
    nombreParaPagina lista extraido i = (lista.get ⟨i, h⟩, Origen.lista) :=
  nombreParaPagina_entrada lista extraido i h hne

/-- C2 is false as stated: with a supplied list whose only entry is the
empty string, index 0 is valid, yet the page uses the generated placeholder
certificado_001 rather than the list entry. -/
theorem lista_precedencia_contraejemplo :
    0 < ([[]] : List (List Char)).length ∧
    nombreParaPagina [[]] (some ("Jane Doe".data)) 0 =
      ("certificado_001".data, Origen.generado) ∧
    ("certificado_001".data : List Char) ≠ [] := by
  refine ⟨by decide, by decide, by decide⟩

/-- Witness for C2: a valid, non-empty list entry wins over an extracted
name. -/
theorem lista_precedencia_testigo :
    0 < ([("Bob Smith".data)] : List (List Char)).length ∧
    nombreParaPagina [("Bob Smith".data)] (some ("Jane Doe".data)) 0 =
      ("Bob Smith".data, Origen.lista) :=
  ⟨by decide,
    lista_precedencia [("Bob Smith".data)] (some ("Jane Doe".data)) 0
      (by decide) (by decide)⟩

/-- C3: the chosen output filename never collides with an existing file,
equals the base name prefijo nombre sufijo .pdf when that is free, and on a
collision equals the counter-suffixed name for the smallest counter at
least 1 whose file does not exist yet, every smaller counter naming an
existing file. -/
theorem colision_sin_sobrescribir (existentes : List (List Char))
    (prefijo nombre_limpio sufijo : List Char) :
    resolverNombreArchivo existentes prefijo nombre_limpio sufijo ∉ existentes ∧
    (nombreArchivoBase prefijo nombre_limpio sufijo ∉ existentes →
      resolverNombreArchivo existentes prefijo nombre_limpio sufijo =
        nombreArchivoBase prefijo nombre_limpio sufijo) ∧
    (nombreArchivoBase prefijo nombre_limpio sufijo ∈ existentes →
      ∃ n, 1 ≤ n ∧
        resolverNombreArchivo existentes prefijo nombre_limpio sufijo =
          nombreArchivoCon prefijo nombre_limpio sufijo n ∧
        nombreArchivoCon prefijo nombre_limpio sufijo n ∉ existentes ∧
        ∀ m, 1 ≤ m → m < n →
          nombreArchivoCon prefijo nombre_limpio sufijo m ∈ existentes) :=
  resolverNombreArchivo_spec existentes prefijo nombre_limpio sufijo

/-- Witness for C3: with John_Doe.pdf pre-existing, the colliding page is
written as John_Doe_1.pdf. -/
theorem colision_sin_sobrescribir_testigo :
    nombreArchivoBase [] ("John_Doe".data) [] ∈ [("John_Doe.pdf".data)] ∧
    resolverNombreArchivo [("John_Doe.pdf".data)] [] ("John_Doe".data) [] =
      "John_Doe_1.pdf".data ∧
    (∃ n, 1 ≤ n ∧
      resolverNombreArchivo [("John_Doe.pdf".data)] [] ("John_Doe".data) [] =
        nombreArchivoCon [] ("John_Doe".data) [] n ∧
      nombreArchivoCon [] ("John_Doe".data) [] n ∉ [("John_Doe.pdf".data)] ∧
      ∀ m, 1 ≤ m → m < n →
        nombreArchivoCon [] ("John_Doe".data) [] m ∈ [("John_Doe.pdf".data)]) :=
  ⟨by decide, by decide,
    (colision_sin_sobrescribir [("John_Doe.pdf".data)] [] ("John_Doe".data) []).2.2 (by decide)⟩

/-- C4: extraer_nombre_de_pagina returns some v exactly when v is the
cleaned capture (whitespace collapsed, truncated at the first line break,
trimmed, longer than 2 characters) of the first pattern producing such a
capture, every earlier pattern producing none; it returns none exactly
when no pattern produces a long enough cleaned capture. -/
theorem extraccion_primer_patron (buscar : List Char → Option (List Char))
    (patrones : List (List Char)) :
    (∀ v, extraer_nombre_de_pagina buscar patrones = some v ↔
      ∃ i, ∃ h : i < patrones.length,
        capturaBuena buscar (patrones.get ⟨i, h⟩) = some v ∧
        ∀ patron ∈ patrones.take i, capturaBuena buscar patron = none) ∧
    (extraer_nombre_de_pagina buscar patrones = none ↔
      ∀ patron ∈ patrones, capturaBuena buscar patron = none) :=
  extraer_caracterizacion buscar patrones

/-- Witness for C4: a capture with internal whitespace and a line break on
the second of two patterns is cleaned and returned. -/
theorem extraccion_primer_patron_testigo :
    ∃ i, ∃ h : i < ([("p1".data), ("p2".data)] : List (List Char)).length,
      capturaBuena
        (fun p => if p = ("p2".data) then some ("  Jane \n  Doe ".data) else none)
        (([("p1".data), ("p2".data)] : List (List Char)).get ⟨i, h⟩) =
        some ("Jane Doe".data) ∧
      ∀ patron ∈ ([("p1".data), ("p2".data)] : List (List Char)).take i,
        capturaBuena
          (fun p => if p = ("p2".data) then some ("  Jane \n  Doe ".data) else none)
          patron = none :=
  ((extraccion_primer_patron
      (fun p => if p = ("p2".data) then some ("  Jane \n  Doe ".data) else none)
      [("p1".data), ("p2".data)]).1 ("Jane Doe".data)).mp (by decide)

/-- C5 (amended): for a single-file run the exit code is zero exactly when
the summary records no page errors; for a batch run the exit code is zero
exactly when at least one document summary was produced, so a batch with
page or document failures still exits zero as long as some summary exists,
and a batch that found no input exits non-zero. -/
theorem codigo_salida (ctx : ContextoSep) (total : Nat) (existentes : List (List Char))
    (resultados : List Resultados) :
    (codigoSalidaArchivo (separar_certificados ctx total existentes) = 0 ↔
      (separar_certificados ctx total existentes).errores = []) ∧
    (codigoSalidaCarpeta resultados = 0 ↔ resultados ≠ []) := by
  constructor
  · unfold codigoSalidaArchivo
    split
    · simp_all
    · simp_all
  · unfold codigoSalidaCarpeta
    split
    · simp_all
    · simp_all

/-- C5 is false as stated: a batch run over one document whose only page
fails to write produces a non-empty summary list, so the exit code is zero
although a page failed during processing. -/
theorem codigo_salida_contraejemplo :
    codigoSalidaCarpeta [separar_certificados ctxFalloEscritura 1 []] = 0 ∧
    (separar_certificados ctxFalloEscritura 1 []).errores ≠ [] := by
  refine ⟨by decide, by decide⟩

/-- Witness for C5: the fully successful three-page run exits with code
zero in single-file mode. -/
theorem codigo_salida_testigo :
    codigoSalidaArchivo (separar_certificados ctxEscenario 3 []) = 0 ↔
      (separar_certificados ctxEscenario 3 []).errores = [] :=
  (codigo_salida ctxEscenario 3 [] []).1

/-- C6: in the three-page scenario the first page uses the list entry
Bob Smith, the second page the generated certificado_002, the third page
the extracted Ana Ruiz, and the summary shows 3 successes and 0 errors. -/
theorem escenario_tres_paginas :
    separar_certificados ctxEscenario 3 [] =
      ⟨[⟨1, "Bob Smith".data, "Bob Smith.pdf".data, Origen.lista⟩,
        ⟨2, "certificado_002".data, "certificado_002.pdf".data, Origen.generado⟩,
        ⟨3, "Ana Ruiz".data, "Ana Ruiz.pdf".data, Origen.extraido⟩],
       [], 3, "certificados.pdf".data⟩ ∧
    (separar_certificados ctxEscenario 3 []).exitosos.length = 3 ∧
    (separar_certificados ctxEscenario 3 []).errores.length = 0 := by
  refine ⟨by decide, by decide, by decide⟩

/-- C7: an extension other than .xlsx, .xls or .csv makes the body of
cargar_lista_nombres raise the format ValueError, the caught exception
yields the empty list, and with that empty list no page ever resolves its
name from the list, so automatic extraction takes over. -/
theorem lista_formato_no_soportado (extension : List Char)
    (leerExcel leerCsv : Except (List Char) (List (List Char)))
    (h1 : extension ∉ extensionesExcel) (h2 : extension ≠ ".csv".data) :
    cargarListaInterno extension leerExcel leerCsv =
      Except.error ("Formato de archivo no soportado: ".data ++ extension) ∧
    cargar_lista_nombres extension leerExcel leerCsv = [] ∧
    (∀ extraido i,
      (nombreParaPagina (cargar_lista_nombres extension leerExcel leerCsv) extraido i).2 ≠
        Origen.lista) := by
  have hint : cargarListaInterno extension leerExcel leerCsv =
      Except.error ("Formato de archivo no soportado: ".data ++ extension) := by
    unfold cargarListaInterno
    rw [if_neg h1, if_neg h2]
  have hvacia : cargar_lista_nombres extension leerExcel leerCsv = [] := by
    unfold cargar_lista_nombres
    rw [hint]
  refine ⟨hint, hvacia, ?_⟩
  intro extraido i
  rw [hvacia, nombreParaPagina_sin_lista]
  cases extraido with
  | none => simp
  | some nombre =>
    by_cases hn : nombre = []
    · simp [hn]
    · simp [hn]

/-- Witness for C7: a .txt list file is rejected and yields the empty
list. -/
theorem lista_formato_no_soportado_testigo :
    (".txt".data ∉ extensionesExcel) ∧ (".txt".data ≠ ".csv".data) ∧
    cargar_lista_nombres (".txt".data) (Except.ok []) (Except.ok []) = [] :=
  ⟨by decide, by decide,
    (lista_formato_no_soportado (".txt".data) (Except.ok []) (Except.ok [])
      (by decide) (by decide)).2.1⟩

/-- C8: when save raises, the per-page try block skips the close call that
sits after save, and the except branch closes nothing, so the single-page
output handle stays open after the iteration, unlike the success path. -/
theorem manejador_fuga_al_guardar :
    manejadoresTrasPagina FalloEscritura.alGuardar = 1 ∧
    manejadoresTrasPagina FalloEscritura.ninguno = 0 := by
  refine ⟨by decide, by decide⟩

/-- C9: two runs of separar_certificados with the same document, list,
patterns, prefijo and sufijo into output directories purged of PDFs yield
identical summaries: same names, same provenance tags, same success and
error records per page. -/
theorem reproceso_identico (ctx : ContextoSep) (total : Nat) (e1 e2 : List (List Char))
    (h1 : ∀ x ∈ e1, ¬ (".pdf".data <:+ x)) (h2 : ∀ x ∈ e2, ¬ (".pdf".data <:+ x)) :
    separar_certificados ctx total e1 = separar_certificados ctx total e2 := by
  obtain ⟨ag, hag1, hag2, hexi, herri⟩ := separar_purgado_aux ctx e1 e2 h1 h2 total
  simp only [separar_certificados]
  rw [hexi, herri]

/-- Witness for C9: the three-page scenario gives the same summary over an
empty output directory and over one holding only a non-PDF file. -/
theorem reproceso_identico_testigo :
    (∀ x ∈ ([] : List (List Char)), ¬ (".pdf".data <:+ x)) ∧
    (∀ x ∈ [("notas.txt".data)], ¬ (".pdf".data <:+ x)) ∧
    separar_certificados ctxEscenario 3 [] =
      separar_certificados ctxEscenario 3 [("notas.txt".data)] :=
  ⟨by decide, by decide,
    reproceso_identico ctxEscenario 3 [] [("notas.txt".data)] (by decide) (by decide)⟩

/-- C10: the run summary partitions the pages: the recorded total is the
page count, the lengths of the two lists add up to it, each list is
strictly increasing in page number, every page number from 1 to n lies in
one of the two lists, and no page number lies in both. -/
theorem resumen_particion (ctx : ContextoSep) (total_paginas : Nat)
    (existentes : List (List Char)) :
    (separar_certificados ctx total_paginas existentes).total = total_paginas ∧
    (separar_certificados ctx total_paginas existentes).exitosos.length +
      (separar_certificados ctx total_paginas existentes).errores.length = total_paginas ∧
    List.Pairwise (· < ·)
      ((separar_certificados ctx total_paginas existentes).exitosos.map Exitoso.pagina) ∧
    List.Pairwise (· < ·)
      ((separar_certificados ctx total_paginas existentes).errores.map ErrorPagina.pagina) ∧
    (∀ p, 1 ≤ p → p ≤ total_paginas →
      p ∈ (separar_certificados ctx total_paginas existentes).exitosos.map Exitoso.pagina ∨
      p ∈ (separar_certificados ctx total_paginas existentes).errores.map ErrorPagina.pagina) ∧
    (∀ p, ¬(p ∈ (separar_certificados ctx total_paginas existentes).exitosos.map Exitoso.pagina ∧
      p ∈ (separar_certificados ctx total_paginas existentes).errores.map ErrorPagina.pagina)) ∧
    (∀ p ∈ (separar_certificados ctx total_paginas existentes).exitosos.map Exitoso.pagina,
      1 ≤ p ∧ p ≤ total_paginas) ∧
    (∀ p ∈ (separar_certificados ctx total_paginas existentes).errores.map ErrorPagina.pagina,
      1 ≤ p ∧ p ≤ total_paginas) := by
  obtain ⟨hp1, hp2, hb1, hb2, hcov, hdis, hlen⟩ :=
    separar_particion_aux ctx existentes total_paginas
  exact ⟨rfl, hlen, hp1, hp2, hcov, hdis, hb1, hb2⟩

/-- Witness for C10: the partition facts evaluated on the three-page
scenario. -/
theorem resumen_particion_testigo :
    (separar_certificados ctxEscenario 3 []).exitosos.length +
      (separar_certificados ctxEscenario 3 []).errores.length = 3 :=
  (resumen_particion ctxEscenario 3 []).2.1

end SSC
